import Mathlib

/-
Verification development for AIContextScraper (Python).

Shallow embedding conventions:
* Python strings are modelled as `List Char` (ASCII fragment of Python's
  unicode-aware character classes: `\s`, `\w`, `str.isalnum`).
* External capabilities (the tiktoken tokenizer, lxml HTML parsing,
  urllib's `urlparse`, the playwright retrieval backend, file-system
  writes) are passed in as function parameters; everything written in the
  repository itself is embedded as executable Lean definitions.
* `asyncio` suspension and exceptions are made explicit: fallible stages
  return `Except`/`Option`, and the orchestrator's observable actions are
  recorded as an event trace.
-/

namespace AICS

/-- ASCII fragment of Python's regex class `\s` (also `str.strip`'s default). -/
def isSpaceCh (c : Char) : Bool :=
  c = ' ' || c = '\t' || c = '\n' || c = '\r' || c = '\x0b' || c = '\x0c'

/-- Terminal punctuation of the sentence-splitting regex `(?<=[.!?])\s+`. -/
def isTermPunct (c : Char) : Bool :=
  c = '.' || c = '!' || c = '?'

/-- The lookbehind test of `re.split(r'(?<=[.!?])\s+', content)`: the current
accumulator holds the already-read characters of the current sentence in
reverse, so its head is the character immediately before the scan position. -/
def lookbehindPunct (acc : List Char) : Bool :=
  match acc with
  | p :: _ => isTermPunct p
  | [] => false

/-- Scanner for `re.split(r'(?<=[.!?])\s+', content)` (parser.py line 37).
`mode = true` means the scan is inside a whitespace run that was opened by a
split (the regex `\s+` is greedy, so the whole run is consumed); `acc` is the
current sentence read so far, reversed. -/
def sentAux (mode : Bool) (acc : List Char) : List Char → List (List Char)
  | [] => [acc.reverse]
  | c :: rest =>
    if mode then
      if isSpaceCh c then sentAux true [] rest
      else sentAux false [c] rest
    else if isSpaceCh c && lookbehindPunct acc then
      acc.reverse :: sentAux true [] rest
    else sentAux false (c :: acc) rest

/-- `re.split(r'(?<=[.!?])\s+', content)` from `ContentParser.chunk_content`.
Like Python's `re.split`, the result is never empty (it is `[[]]` on `[]`). -/
def sentencesOf (content : List Char) : List (List Char) :=
  sentAux false [] content

/-- Python's `' '.join(parts)` on a list of strings. -/
def joinSp : List (List Char) → List Char
  | [] => []
  | [x] => x
  | x :: y :: rest => x ++ ' ' :: joinSp (y :: rest)

/-- The sentence-accumulation loop of `ContentParser.chunk_content`
(parser.py lines 39-52), with the chunks kept as lists of sentences (the
Python code joins each chunk with `' '.join` at append time; `joinSp` is
applied by `chunk_content` below).  `cur` is `current_chunk` and `curTok`
is `current_tokens`; the final `if current_chunk: chunks.append(...)` is the
base case.  `tok` is the external tiktoken tokenizer `count_tokens`, and
`budget` is the configured `CHUNK_SIZE`. -/
def chunkLoop (tok : List Char → Nat) (budget : Nat) :
    List (List Char) → List (List Char) → Nat → List (List (List Char))
  | [], cur, _ => if cur = [] then [] else [cur]
  | s :: rest, cur, curTok =>
    if curTok + tok s > budget then
      (if cur = [] then [] else [cur]) ++ chunkLoop tok budget rest [s] (tok s)
    else
      chunkLoop tok budget rest (cur ++ [s]) (curTok + tok s)

/-- `ContentParser.chunk_content`, at the level of sentence lists. -/
def chunkLists (tok : List Char → Nat) (budget : Nat) (content : List Char) :
    List (List (List Char)) :=
  chunkLoop tok budget (sentencesOf content) [] 0

/-- `ContentParser.chunk_content(content) -> List[str]` (parser.py 30-54):
each chunk is the space-join of its accumulated sentences. -/
def chunk_content (tok : List Char → Nat) (budget : Nat) (content : List Char) :
    List (List Char) :=
  (chunkLists tok budget content).map joinSp

/-- The chunk record `{'content': ..., 'tokens': ...}` of
`ContentParser.get_chunks`. -/
structure Chunk where
  content : List Char
  tokens : Nat
deriving DecidableEq

/-- `ContentParser.get_chunks` (parser.py 122-129). -/
def get_chunks (tok : List Char → Nat) (budget : Nat) (content : List Char) :
    List Chunk :=
  (chunk_content tok budget content).map (fun c => ⟨c, tok c⟩)

/-- `CHUNK_SIZE` from config.py. -/
def CHUNK_SIZE : Nat := 500

/-! Text cleaning (`ContentParser.clean_text`, parser.py 15-24). -/

/-- Python `str.strip()` (ASCII whitespace fragment), also used for the
truthiness test `if not text.strip()`. -/
def pyStrip (l : List Char) : List Char :=
  ((l.dropWhile isSpaceCh).reverse.dropWhile isSpaceCh).reverse

/-- One pass of `re.sub(r'\s+', ' ', text)`: every maximal whitespace run is
replaced by a single space.  `prevSp` records whether the previous character
was part of a whitespace run already emitted as `' '`. -/
def collapseWsAux (prevSp : Bool) : List Char → List Char
  | [] => []
  | c :: rest =>
    if isSpaceCh c then
      if prevSp then collapseWsAux true rest else ' ' :: collapseWsAux true rest
    else c :: collapseWsAux false rest

/-- ASCII fragment of the regex class `\w`. -/
def isWordCh (c : Char) : Bool := c.isAlphanum || c = '_'

/-- Characters kept by `re.sub(r'[^\w\s.,!?-]', '', text)`. -/
def keepCh (c : Char) : Bool :=
  isWordCh c || isSpaceCh c || c = '.' || c = ',' || c = '!' || c = '?' || c = '-'

/-- `ContentParser.clean_text`: collapse whitespace runs, strip, then drop
characters outside `\w`, `\s` and the punctuation set `. , ! ? -`. -/
def clean_text (t : List Char) : List Char :=
  (pyStrip (collapseWsAux false t)).filter keepCh

/-! HTML extraction (`ContentParser.extract_content`, parser.py 56-75).
The lxml parse of the markup string is an external capability; the parsed tree
is modelled explicitly so the repository's own traversal logic is embedded. -/

/-- A parsed HTML node: an element with a tag and children, or a text node. -/
inductive HNode where
  | elem (tag : String) (children : List HNode)
  | text (s : List Char)

/-- Tags removed by `soup.find_all(['script','style','nav','footer','header'])`
followed by `element.decompose()`. -/
def unwantedTag (t : String) : Bool :=
  t == "script" || t == "style" || t == "nav" || t == "footer" || t == "header"

/-- Tags collected by `soup.find_all(['p','h1',...,'h6','li'])`. -/
def targetTag (t : String) : Bool :=
  t == "p" || t == "h1" || t == "h2" || t == "h3" || t == "h4" || t == "h5" ||
  t == "h6" || t == "li"

/-- Removal of every unwanted-tag subtree (`element.decompose()`). -/
def scrubList : List HNode → List HNode
  | [] => []
  | .elem t cs :: rest =>
    if unwantedTag t then scrubList rest
    else .elem t (scrubList cs) :: scrubList rest
  | .text s :: rest => .text s :: scrubList rest

/-- Document-order (pre-order) `find_all` for the target tags; nested matches
are collected as well, as BeautifulSoup does. -/
def findAllTargets : List HNode → List HNode
  | [] => []
  | .elem t cs :: rest =>
    (if targetTag t then [HNode.elem t cs] else []) ++
      findAllTargets cs ++ findAllTargets rest
  | .text _ :: rest => findAllTargets rest

/-- `element.get_text(strip=True)`: each descendant string is stripped and the
results are concatenated (empty pieces contribute nothing). -/
def getTextList : List HNode → List Char
  | [] => []
  | .elem _ cs :: rest => getTextList cs ++ getTextList rest
  | .text s :: rest => pyStrip s ++ getTextList rest

/-- Python's `'\n'.join(parts)`. -/
def joinNl : List (List Char) → List Char
  | [] => []
  | [x] => x
  | x :: y :: rest => x ++ '\n' :: joinNl (y :: rest)

/-- The heading test `element.name.startswith('h')`. -/
def headingTag (t : String) : Bool :=
  match t.data with
  | 'h' :: _ => true
  | _ => false

/-- The per-element text of `extract_content`'s collection loop: skip elements
with empty text; wrap heading text (`element.name.startswith('h')`) in
newlines. -/
def elemPiece : HNode → Option (List Char)
  | .elem t cs =>
    let tx := getTextList cs
    if tx = [] then none
    else if headingTag t then some ('\n' :: tx ++ ['\n'])
    else some tx
  | .text _ => none

/-- `ContentParser.extract_content` applied to the (externally) parsed tree. -/
def extract_content (dom : List HNode) : List Char :=
  joinNl ((findAllTargets (scrubList dom)).filterMap elemPiece)

/-! Page parsing (`ContentParser.parse_page`, parser.py 77-120). -/

/-- A Python value stored under the `html` key: a string, `None`, or some
non-string object (the code distinguishes the three). -/
inductive PyVal where
  | str (s : List Char)
  | pynone
  | other
deriving DecidableEq

/-- The `page_data` dictionary as read by `parse_page`: each field is `none`
when the key is absent.  `url` and `title` are only ever strings where the
code inspects them, so they are modelled as optional strings. -/
structure PageRec where
  html : Option PyVal
  url : Option (List Char)
  title : Option (List Char)
deriving DecidableEq

/-- The metadata record built from `METADATA_TEMPLATE` (config.py); note it
has no `html` field. -/
structure ParsedPage where
  title : List Char
  url : List Char
  content : List Char
  tokens : Nat
  timestamp : List Char
deriving DecidableEq

/-- `ContentParser.parse_page`.  `parseHtml` is the external lxml parse,
`tok` the external tokenizer, `now` the external timestamp.  All raised
exceptions are wrapped into `ValueError("Failed to parse page: ...")`; the
model returns the underlying message. -/
def parse_page (parseHtml : List Char → List HNode) (tok : List Char → Nat)
    (now : List Char) (p : PageRec) : Except (List Char) ParsedPage :=
  if p.html.isNone || p.url.isNone || p.title.isNone then
    .error "Missing required keys in page_data".data
  else
    match p.html with
    | some .pynone => .error "HTML content is None".data
    | some .other => .error "HTML content must be a string".data
    | some (.str h) =>
      if pyStrip h = [] then .error "HTML content is empty".data
      else
        let raw := extract_content (parseHtml h)
        if pyStrip raw = [] then .error "No content extracted from HTML".data
        else
          let cleaned := clean_text raw
          .ok ⟨pyStrip (p.title.getD []), pyStrip (p.url.getD []),
               cleaned, tok cleaned, now⟩
    | none => .error "Missing required keys in page_data".data

/-! Fetcher (`AsyncFetcher`, fetcher.py).  The playwright retrieval session is
an external capability: `outcome url rc` is the result of the whole retrieval
attempt body (the `try` block) for `url` at retry index `rc` — `some page` on
success, `none` on any raised failure.  `netloc` abstracts
`urlparse(url).netloc`. -/

/-- `MAX_RETRIES` from config.py. -/
def MAX_RETRIES : Nat := 3

/-- `BLACKLIST_PATTERNS` from config.py. -/
def BLACKLIST_PATTERNS : List (List Char) :=
  ["#top".data, ".jpg".data, ".png".data, ".gif".data, ".css".data, ".js".data]

/-- Boolean list-equality-based prefix test (helper for substring search). -/
def hasPre : List Char → List Char → Bool
  | [], _ => true
  | _ :: _, [] => false
  | a :: as, b :: bs => a == b && hasPre as bs

/-- Python's `pattern in url` substring test. -/
def hasSub (pat : List Char) : List Char → Bool
  | [] => hasPre pat []
  | b :: rest => hasPre pat (b :: rest) || hasSub pat rest

/-- `AsyncFetcher._is_valid_url` (fetcher.py 100-106): non-empty, free of all
blacklist substrings, and host equal to the seed's host. -/
def validUrl (netloc : List Char → List Char) (domain url : List Char) : Bool :=
  if url = [] || BLACKLIST_PATTERNS.any (fun p => hasSub p url) then false
  else netloc url == domain

/-- The dictionary returned by a successful `fetch_page` (timestamp elided
into the external outcome). -/
structure FetchedPage where
  url : List Char
  html : List Char
  title : List Char
deriving DecidableEq

/-- The fetcher's mutable crawl-session state (`visited_urls`,
`failed_urls`). -/
structure FetchSt where
  visited : List (List Char)
  failed : List (List Char)
deriving DecidableEq

/-- Observable fetch events: a retrieval attempt for a URL at a retry index,
and an `asyncio.sleep` of a number of time units. -/
inductive FEv where
  | attempt (url : List Char) (rc : Nat)
  | sleep (units : Nat)
deriving DecidableEq

/-- `AsyncFetcher.fetch_page` (fetcher.py 35-98).  Returns the result, the
updated session state, and the trace of retrieval attempts and backoff
sleeps.  The recursive retry call re-enters through the same
validity-and-visited guard, exactly as in the source. -/
def fetch_page (netloc : List Char → List Char) (domain : List Char)
    (outcome : List Char → Nat → Option FetchedPage)
    (url : List Char) (rc : Nat) (st : FetchSt) :
    Option FetchedPage × FetchSt × List FEv :=
  if !(validUrl netloc domain url) || st.visited.contains url then
    (none, st, [])
  else
    let st1 : FetchSt := ⟨url :: st.visited, st.failed⟩
    match outcome url rc with
    | some page => (some page, st1, [.attempt url rc])
    | none =>
      if h : rc < MAX_RETRIES then
        let r := fetch_page netloc domain outcome url (rc + 1) st1
        (r.1, r.2.1, .attempt url rc :: .sleep (2 ^ rc) :: r.2.2)
      else
        (none, ⟨st1.visited, url :: st1.failed⟩, [.attempt url rc])
termination_by MAX_RETRIES + 1 - rc

/-- `AsyncFetcher.extract_links` (fetcher.py 108-120).  `anchors html cur`
abstracts the external BeautifulSoup anchor scan plus `urljoin` resolution;
the repository's own validity filter and the set's duplicate collapsing are
embedded. -/
def extract_links (netloc : List Char → List Char) (domain : List Char)
    (anchors : List Char → List Char → List (List Char))
    (html cur : List Char) : List (List Char) :=
  ((anchors html cur).filter (fun u => validUrl netloc domain u)).dedup

/-- Sequential model of `asyncio.gather` over the per-link fetch tasks: each
task's state updates are threaded in order (the event loop interleaves at
suspension points; ordering across tasks is unspecified and irrelevant to the
claims settled here). -/
def fetchSeq (netloc : List Char → List Char) (domain : List Char)
    (outcome : List Char → Nat → Option FetchedPage) :
    List (List Char) → FetchSt →
      List (Option FetchedPage) × FetchSt × List FEv
  | [], st => ([], st, [])
  | u :: us, st =>
    let r := fetch_page netloc domain outcome u 0 st
    let rest := fetchSeq netloc domain outcome us r.2.1
    (r.1 :: rest.1, rest.2.1, r.2.2 ++ rest.2.2)

/-- `CrawlResult`: the dictionary returned by `AsyncFetcher.crawl`. -/
structure CrawlResult where
  pages : List FetchedPage
  failed_urls : List (List Char)
deriving DecidableEq

/-- `AsyncFetcher.crawl` (fetcher.py 122-141). -/
def crawl (netloc : List Char → List Char) (domain : List Char)
    (outcome : List Char → Nat → Option FetchedPage)
    (anchors : List Char → List Char → List (List Char))
    (start : List Char) : CrawlResult × FetchSt × List FEv :=
  let r := fetch_page netloc domain outcome start 0 ⟨[], []⟩
  match r.1 with
  | none => (⟨[], r.2.1.failed⟩, r.2.1, r.2.2)
  | some page =>
    let ls := extract_links netloc domain anchors page.html start
    let rest := fetchSeq netloc domain outcome ls r.2.1
    (⟨page :: rest.1.filterMap id, rest.2.1.failed⟩, rest.2.1, r.2.2 ++ rest.2.2)

/-! Exporter (`ContentExporter`, exporter.py).  File writes are external; the
embedded part is the filename and content computation.  A produced file is a
`(directory, filename, content)` triple under the run's output directory. -/

/-- A file written under the run's output directory. -/
structure FileOut where
  dir : List Char
  name : List Char
  content : List Char
deriving DecidableEq

/-- `ContentExporter._sanitize_filename` (exporter.py 42-46): every character
that is not alphanumeric and not one of `. - _` becomes `_`; the result is
truncated to 100 characters. -/
def sanitize_filename (name : List Char) : List Char :=
  (name.map (fun c =>
    if c.isAlphanum || c = '.' || c = '-' || c = '_' then c else '_')).take 100

/-- Decimal digit character of `n % 10`. -/
def digitCharOf (n : Nat) : Char :=
  match n % 10 with
  | 0 => '0' | 1 => '1' | 2 => '2' | 3 => '3' | 4 => '4'
  | 5 => '5' | 6 => '6' | 7 => '7' | 8 => '8' | _ => '9'

/-- Fuel-driven decimal rendering accumulator. -/
def natDigitsGo : Nat → Nat → List Char → List Char
  | 0, _, acc => acc
  | fuel + 1, n, acc =>
    if n < 10 then digitCharOf n :: acc
    else natDigitsGo fuel (n / 10) (digitCharOf n :: acc)

/-- Python's `str(n)` for a natural number (decimal rendering). -/
def natDigits (n : Nat) : List Char := natDigitsGo (n + 1) n []

/-- Suffix test, Python's `str.endswith`. -/
def endsWithL (suf l : List Char) : Bool := hasPre suf.reverse l.reverse

/-- Python's `str.strip("/")`. -/
def stripSlashes (l : List Char) : List Char :=
  ((l.dropWhile (fun c => c = '/')).reverse.dropWhile (fun c => c = '/')).reverse

/-- The filename computed by `ContentExporter.save_txt` (exporter.py 22-34):
`urlparse(url).path.strip("/").replace("/", "_") or "index"`, with `".txt"`
appended when not already a suffix.  `upath` is the URL's `urlparse` path. -/
def save_txt_filename (upath : List Char) : List Char :=
  let f := (stripSlashes upath).map (fun c => if c = '/' then '_' else c)
  let f := if f = [] then "index".data else f
  if endsWithL ".txt".data f then f else f ++ ".txt".data

/-- The file written by `ContentExporter.save_txt` into the `txt/` folder. -/
def save_txt_file (upath content : List Char) : FileOut :=
  ⟨"txt".data, save_txt_filename upath, content⟩

/-- The file written by `ContentExporter.save_raw_html` (exporter.py 48-54). -/
def save_raw_html_file (url html : List Char) : FileOut :=
  ⟨"raw_html".data, sanitize_filename url ++ ".html".data, html⟩

/-- The file written by `ContentExporter.save_json` (exporter.py 56-62);
`render` abstracts the external `json.dumps` serialization. -/
def save_json_file (render : ParsedPage → List Char) (p : ParsedPage) : FileOut :=
  ⟨"json".data, sanitize_filename p.url ++ ".json".data, render p⟩

/-- The files written by `ContentExporter.save_txt_chunks` (exporter.py
64-73): one `txt/<base>_chunk<i>.txt` file per chunk, `i` starting at 1. -/
def save_txt_chunks_files (url : List Char) (chunks : List Chunk) : List FileOut :=
  chunks.enum.map (fun ic =>
    ⟨"txt".data,
     sanitize_filename url ++ "_chunk".data ++ natDigits (ic.1 + 1) ++ ".txt".data,
     ic.2.content⟩)

/-- Fault injection for one external file write: `none` means the write
succeeds, `some msg` means it raises `msg`. -/
structure WriteFaults where
  rawFault : Option (List Char)
  jsonFault : Option (List Char)
  chunksFault : Option (List Char)
deriving DecidableEq

/-- One awaited write inside `asyncio.gather`: its produced files, or the
message it raises. -/
def writeAct (fault : Option (List Char)) (files : List FileOut) :
    Except (List Char) (List FileOut) :=
  match fault with
  | none => .ok files
  | some m => .error m

/-- `asyncio.gather` without `return_exceptions`: every task runs to
completion (a failing task does not cancel its siblings), all files of the
succeeding tasks are persisted, and the first raised message is propagated. -/
def gatherFiles (acts : List (Except (List Char) (List FileOut))) :
    List FileOut × Option (List Char) :=
  acts.foldr (fun a acc =>
    match a with
    | .ok fs => (fs ++ acc.1, acc.2)
    | .error m => (acc.1, some m)) ([], none)

/-- `ContentExporter.export_page` (exporter.py 103-116) with `PDF_ENABLED =
False` (config.py).  `htmlVal` is the value under the input dictionary's
`html` key, or `none` when that key is absent: `page_data['html']` is
evaluated while building the argument list of `save_raw_html`, before
`asyncio.gather` runs, and raises `KeyError` if the key is missing — in that
case no write is attempted at all. -/
def export_page (render : ParsedPage → List Char) (faults : WriteFaults)
    (p : ParsedPage) (htmlVal : Option (List Char)) (chunks : List Chunk) :
    List FileOut × Option (List Char) :=
  match htmlVal with
  | none => ([], some "KeyError: html".data)
  | some html =>
    gatherFiles
      [writeAct faults.rawFault [save_raw_html_file p.url html],
       writeAct faults.jsonFault [save_json_file render p],
       writeAct faults.chunksFault (save_txt_chunks_files p.url chunks)]

/-! Orchestrator (`scrape_site`'s per-page loop, main.py 36-82). -/

/-- Observable per-page orchestration events. -/
inductive OEv where
  | warnLogged (msg : List Char)
  | savedTxt (name content : List Char)
  | exportAttempted (url : List Char)
  | errLogged (msg : List Char)
deriving DecidableEq

/-- Test for an `exportAttempted` event. -/
def isExportEv : OEv → Bool
  | .exportAttempted _ => true
  | _ => false

/-- One iteration of `scrape_site`'s page loop (main.py 36-82), returning the
event trace and the number added to `total_errors`.  Key Python semantics
made explicit: `ContentExporter.save_txt` is a plain synchronous method
(exporter.py line 22), so `await exporter.save_txt(...)` first runs the call
— which does write the file — and then awaits its `None` return value, which
raises `TypeError`; on the parse-success path that exception is caught by the
`except ... as export_error` handler (so `export_page` is never invoked), and
on the parse-failure fallback path it propagates to the outer per-page
handler (so the `total_errors += 1` on line 77 is skipped and the outer
handler counts the error instead). -/
def processPage (parseHtml : List Char → List HNode) (tok : List Char → Nat)
    (upath : List Char → List Char) (now : List Char) (page : FetchedPage) :
    List OEv × Nat :=
  if page.html = [] || pyStrip page.html = [] then
    ([.warnLogged "No HTML content found".data], 0)
  else
    match parse_page parseHtml tok now
        ⟨some (.str page.html), some page.url, some page.title⟩ with
    | .ok parsed =>
      ([.savedTxt (save_txt_filename (upath page.url)) parsed.content,
        .errLogged "Failed to export".data], 1)
    | .error _ =>
      ([.warnLogged "Failed to parse".data,
        .savedTxt (save_txt_filename (upath page.url)) page.html,
        .errLogged "Error processing page".data], 1)

/-- The whole page loop of `scrape_site` over the crawl's page list. -/
def scrapePages (parseHtml : List Char → List HNode) (tok : List Char → Nat)
    (upath : List Char → List Char) (now : List Char) :
    List FetchedPage → List OEv × Nat
  | [] => ([], 0)
  | p :: rest =>
    let r := processPage parseHtml tok upath now p
    let rr := scrapePages parseHtml tok upath now rest
    (r.1 ++ rr.1, r.2 + rr.2)

/-! Formalized claim statements needed for refutations. -/

/-- Whether an `Except` value is an error. -/
def exceptErr {ε α : Type} : Except ε α → Bool
  | .error _ => true
  | .ok _ => false

/-- The `html` half of the claimed failure condition for `parse_page`: the
markup is missing, not text, empty or blank. -/
def c7HtmlBad (p : PageRec) : Prop :=
  match p.html with
  | some (.str h) => pyStrip h = []
  | _ => True

/-- Claimed failure condition for `parse_page`: the record lacks non-empty
`html`, `url` or `title` fields, or the markup is missing/not text/empty, or
extraction yields no content after cleaning. -/
def c7ClaimedFail (parseHtml : List Char → List HNode) (p : PageRec) : Prop :=
  c7HtmlBad p ∨
  p.url = none ∨ p.url = some [] ∨ p.title = none ∨ p.title = some [] ∨
  ∀ h, p.html = some (.str h) → clean_text (extract_content (parseHtml h)) = []

/-- The claim: `parse_page` fails exactly under `c7ClaimedFail`. -/
def c7Claim : Prop :=
  ∀ (parseHtml : List Char → List HNode) (tok : List Char → Nat)
    (now : List Char) (p : PageRec),
    exceptErr (parse_page parseHtml tok now p) = true ↔ c7ClaimedFail parseHtml p

/-- The claimed filename character discipline: every character alphanumeric
or one of `. - _`. -/
def c9SafeName (n : List Char) : Prop :=
  ∀ c ∈ n, c.isAlphanum = true ∨ c = '.' ∨ c = '-' ∨ c = '_'

instance (n : List Char) : Decidable (c9SafeName n) := by
  unfold c9SafeName; infer_instance

/-! Concrete fixtures used by the closed counterexample and witness
theorems. -/

/-- A concrete tokenizer for witnesses: the number of `x` characters. -/
def tokX (l : List Char) : Nat := (l.filter (fun c => c = 'x')).length

/-- A concrete `urlparse(...).netloc` that always answers `h`. -/
def nl0 : List Char → List Char := fun _ => "h".data

/-- A retrieval backend whose every attempt fails. -/
def failOutcome : List Char → Nat → Option FetchedPage := fun _ _ => none

/-- An anchor scan that finds no links. -/
def noAnchors : List Char → List Char → List (List Char) := fun _ _ => []

/-- A concrete seed URL. -/
def seed0 : List Char := "http://h/a".data

/-- A concrete lxml parse: any markup parses to one `p` element with text
`ok` (consistent with lxml on `<p>ok</p>`). -/
def ph0 : List Char → List HNode := fun _ => [HNode.elem "p" [HNode.text "ok".data]]

/-- A concrete tokenizer for evaluations: the character count. -/
def tok0 : List Char → Nat := fun l => l.length

/-- A concrete `urlparse(...).path` consistent with URLs of the shape
`http://h/...`. -/
def upath0 : List Char → List Char := fun u => u.drop 8

/-- A concrete successfully fetched page. -/
def page0 : FetchedPage := ⟨"http://h/a".data, "<p>ok</p>".data, "T".data⟩

/-- A second concrete successfully fetched page. -/
def page0b : FetchedPage := ⟨"http://h/b".data, "<p>ok</p>".data, "T2".data⟩

/-- A concrete parsed-page record. -/
def parsed0 : ParsedPage := ⟨"T".data, "http://h/a".data, "ok".data, 2, "ts".data⟩

/-- A concrete JSON serializer stand-in. -/
def render0 : ParsedPage → List Char := fun p => p.content

/-- A concrete chunk list. -/
def chunks0 : List Chunk := [⟨"ok".data, 2⟩]

/-- A page record whose `title` is present but empty (and parses fine). -/
def pageRec0 : PageRec := ⟨some (.str "<p>ok</p>".data), some "u".data, some []⟩

/-! Helper lemmas about the chunker. -/

theorem sentAux_ne_nil (l : List Char) : ∀ (mode : Bool) (acc : List Char),
    sentAux mode acc l ≠ [] := by
  induction l with
  | nil => intro mode acc; simp [sentAux]
  | cons c rest ih =>
    intro mode acc
    simp only [sentAux]
    split
    · split
      · exact ih true []
      · exact ih false [c]
    · split
      · simp
      · exact ih false (c :: acc)

theorem joinSp_append : ∀ (p m : List (List Char)), p ≠ [] → m ≠ [] →
    joinSp (p ++ m) = joinSp p ++ ' ' :: joinSp m := by
  intro p
  induction p with
  | nil => intro m hp _; exact absurd rfl hp
  | cons x xs ih =>
    intro m _ hm
    cases xs with
    | nil =>
      cases m with
      | nil => exact absurd rfl hm
      | cons y ys => simp [joinSp]
    | cons x2 xs2 =>
      have h2 := ih m (by simp) hm
      simp only [List.cons_append, List.append_eq, joinSp] at h2 ⊢
      rw [h2]
      simp

theorem joinSp_flatten : ∀ (parts : List (List (List Char))),
    (∀ q ∈ parts, q ≠ []) → joinSp (parts.map joinSp) = joinSp parts.flatten := by
  intro parts
  induction parts with
  | nil => intro _; simp [joinSp]
  | cons p ps ih =>
    intro h
    cases ps with
    | nil => simp [joinSp]
    | cons q qs =>
      have hp : p ≠ [] := h p (by simp)
      have hq : q ≠ [] := h q (by simp)
      have hjoin : (q :: qs).flatten ≠ [] := by
        cases q with
        | nil => exact absurd rfl hq
        | cons a as => simp
      have hrest : joinSp ((q :: qs).map joinSp) = joinSp (q :: qs).flatten :=
        ih (fun r hr => h r (by simp [hr]))
      calc joinSp ((p :: q :: qs).map joinSp)
          = joinSp p ++ ' ' :: joinSp ((q :: qs).map joinSp) := by simp [joinSp]
        _ = joinSp p ++ ' ' :: joinSp (q :: qs).flatten := by rw [hrest]
        _ = joinSp (p ++ (q :: qs).flatten) := (joinSp_append p _ hp hjoin).symm
        _ = joinSp ((p :: q :: qs).flatten) := by simp

theorem chunkLoop_join (tok : List Char → Nat) (b : Nat) :
    ∀ (sents cur : List (List Char)) (t : Nat),
      (chunkLoop tok b sents cur t).flatten = cur ++ sents := by
  intro sents
  induction sents with
  | nil =>
    intro cur t
    by_cases h : cur = [] <;> simp [chunkLoop, h]
  | cons s rest ih =>
    intro cur t
    simp only [chunkLoop]
    split
    · by_cases h : cur = [] <;> simp [h, ih]
    · simp [ih]

theorem chunkLoop_mem_ne_nil (tok : List Char → Nat) (b : Nat) :
    ∀ (sents cur : List (List Char)) (t : Nat) (c : List (List Char)),
      c ∈ chunkLoop tok b sents cur t → c ≠ [] := by
  intro sents
  induction sents with
  | nil =>
    intro cur t c hc
    by_cases h : cur = []
    · simp [chunkLoop, h] at hc
    · simp [chunkLoop, h] at hc
      subst hc; exact h
  | cons s rest ih =>
    intro cur t c hc
    simp only [chunkLoop] at hc
    split at hc
    · rcases List.mem_append.mp hc with h1 | h2
      · by_cases h : cur = []
        · simp [h] at h1
        · simp [h] at h1
          subst h1; exact h
      · exact ih [s] (tok s) c h2
    · exact ih (cur ++ [s]) (t + tok s) c hc

theorem chunkLoop_ne_nil (tok : List Char → Nat) (b : Nat) :
    ∀ (sents cur : List (List Char)) (t : Nat), (cur ≠ [] ∨ sents ≠ []) →
      chunkLoop tok b sents cur t ≠ [] := by
  intro sents
  induction sents with
  | nil =>
    intro cur t h
    rcases h with h | h
    · simp [chunkLoop, h]
    · exact absurd rfl h
  | cons s rest ih =>
    intro cur t _
    simp only [chunkLoop]
    split
    · have h2 := ih [s] (tok s) (Or.inl (by simp))
      intro hemp
      rcases List.append_eq_nil.mp hemp with ⟨_, h4⟩
      exact h2 h4
    · exact ih (cur ++ [s]) (t + tok s) (Or.inl (by simp))

theorem chunkLoop_budget (tok : List Char → Nat) (b : Nat) :
    ∀ (sents cur : List (List Char)) (t : Nat),
      t = (cur.map tok).sum →
      (cur ≠ [] → ((cur.map tok).sum ≤ b ∨ (cur.length = 1 ∧ b < (cur.map tok).sum))) →
      ∀ c ∈ chunkLoop tok b sents cur t,
        (c.map tok).sum ≤ b ∨ (c.length = 1 ∧ b < (c.map tok).sum) := by
  intro sents
  induction sents with
  | nil =>
    intro cur t _ hcur c hc
    by_cases h : cur = []
    · simp [chunkLoop, h] at hc
    · simp [chunkLoop, h] at hc
      subst hc; exact hcur h
  | cons s rest ih =>
    intro cur t ht hcur c hc
    simp only [chunkLoop] at hc
    split at hc
    · rcases List.mem_append.mp hc with h1 | h2
      · by_cases h : cur = []
        · simp [h] at h1
        · simp [h] at h1
          subst h1; exact hcur h
      · refine ih [s] (tok s) (by simp) ?_ c h2
        intro _
        by_cases hb : tok s ≤ b
        · left; simpa using hb
        · right
          refine ⟨by simp, ?_⟩
          simp only [List.map_cons, List.map_nil, List.sum_cons, List.sum_nil]
          omega
    · refine ih (cur ++ [s]) (t + tok s) (by simp [ht]) ?_ c hc
      intro _
      left
      rename_i hle
      simp only [List.map_append, List.sum_append, List.map_cons, List.map_nil,
        List.sum_cons, List.sum_nil] at *
      omega

theorem tok_joinSp_le (tok : List Char → Nat)
    (hsub : ∀ a c, tok (a ++ ' ' :: c) ≤ tok a + tok c) :
    ∀ (c : List (List Char)), c ≠ [] → tok (joinSp c) ≤ (c.map tok).sum := by
  intro c
  induction c with
  | nil => intro h; exact absurd rfl h
  | cons x xs ih =>
    intro _
    cases xs with
    | nil => simp [joinSp]
    | cons y ys =>
      calc tok (joinSp (x :: y :: ys)) = tok (x ++ ' ' :: joinSp (y :: ys)) := by
            simp [joinSp]
        _ ≤ tok x + tok (joinSp (y :: ys)) := hsub x _
        _ ≤ tok x + ((y :: ys).map tok).sum := Nat.add_le_add_left (ih (by simp)) _
        _ = ((x :: y :: ys).map tok).sum := by simp

/-- C5: for every content string and chunk budget, every chunk produced by
the chunker has a token count at most the budget, except a chunk consisting
of a single sentence whose own token count already exceeds the budget.  The
hypothesis states the only tokenizer fact this depends on: joining two texts
with a single space costs at most the sum of their token counts (the
tokenizer itself is an external capability). -/
theorem chunk_token_budget_C5 (tok : List Char → Nat) (budget : Nat)
    (content : List Char)
    (hsub : ∀ a c, tok (a ++ ' ' :: c) ≤ tok a + tok c) :
    ∀ c ∈ chunkLists tok budget content,
      tok (joinSp c) ≤ budget ∨ (c.length = 1 ∧ budget < tok (joinSp c)) := by
  intro c hc
  have hP := chunkLoop_budget tok budget (sentencesOf content) [] 0 (by simp)
    (by intro h; exact absurd rfl h) c hc
  have hne := chunkLoop_mem_ne_nil tok budget (sentencesOf content) [] 0 c hc
  rcases hP with h | ⟨hlen, hgt⟩
  · left; exact le_trans (tok_joinSp_le tok hsub c hne) h
  · right
    refine ⟨hlen, ?_⟩
    obtain ⟨s, rfl⟩ := List.length_eq_one.mp hlen
    simpa [joinSp] using hgt

/-- Witness for C5 at a concrete tokenizer, budget, content and chunk. -/
theorem chunk_token_budget_C5_witness :
    tokX (joinSp ["xx.".data, "x.".data]) ≤ 3 ∨
      ((["xx.".data, "x.".data] : List (List Char)).length = 1 ∧
        3 < tokX (joinSp ["xx.".data, "x.".data])) :=
  chunk_token_budget_C5 tokX 3 "xx. x. xxxx.".data
    (by intro a c; simp [tokX, List.filter_append])
    ["xx.".data, "x.".data] (by decide)

/-- C6: the chunking is an order-preserving partition of the sentence
sequence obtained by splitting on terminal punctuation followed by
whitespace, and concatenating all chunk contents with single spaces
reproduces that sentence sequence joined with single spaces. -/
theorem chunk_partition_C6 (tok : List Char → Nat) (budget : Nat)
    (content : List Char) :
    (chunkLists tok budget content).flatten = sentencesOf content ∧
    chunk_content tok budget content = (chunkLists tok budget content).map joinSp ∧
    joinSp (chunk_content tok budget content) = joinSp (sentencesOf content) := by
  have hjoin : (chunkLists tok budget content).flatten = sentencesOf content := by
    simpa using chunkLoop_join tok budget (sentencesOf content) [] 0
  refine ⟨hjoin, rfl, ?_⟩
  have hne : ∀ q ∈ chunkLists tok budget content, q ≠ [] :=
    fun q hq => chunkLoop_mem_ne_nil tok budget (sentencesOf content) [] 0 q hq
  calc joinSp (chunk_content tok budget content)
      = joinSp ((chunkLists tok budget content).map joinSp) := rfl
    _ = joinSp (chunkLists tok budget content).flatten := joinSp_flatten _ hne
    _ = joinSp (sentencesOf content) := by rw [hjoin]

/-- C10: the chunker always returns at least one chunk; on empty content it
returns exactly one chunk, whose content is empty with zero tokens, and the
chunk exporter therefore writes exactly one chunk file.  The hypothesis is
the external tokenizer fact that the empty text has zero tokens. -/
theorem chunker_empty_C10 (tok : List Char → Nat) (budget : Nat)
    (url content : List Char) (h0 : tok [] = 0) :
    chunk_content tok budget content ≠ [] ∧
    get_chunks tok budget [] = [⟨[], 0⟩] ∧
    (save_txt_chunks_files url (get_chunks tok budget [])).length = 1 := by
  have h2 : get_chunks tok budget [] = [⟨[], 0⟩] := by
    have hs : sentencesOf ([] : List Char) = [[]] := rfl
    simp [get_chunks, chunk_content, chunkLists, hs, chunkLoop, h0, joinSp]
  refine ⟨?_, h2, by simp [save_txt_chunks_files, h2]⟩
  have hne := chunkLoop_ne_nil tok budget (sentencesOf content) [] 0
    (Or.inr (sentAux_ne_nil content false []))
  simp only [chunk_content, ne_eq, List.map_eq_nil_iff]
  exact hne

/-- Witness for C10 at a concrete tokenizer, budget, url and content. -/
theorem chunker_empty_C10_witness :
    chunk_content tokX 500 "Hi there.".data ≠ [] ∧
    get_chunks tokX 500 [] = [⟨[], 0⟩] ∧
    (save_txt_chunks_files "http://h/a".data (get_chunks tokX 500 [])).length = 1 :=
  chunker_empty_C10 tokX 500 "http://h/a".data "Hi there.".data rfl

/-! Fetcher claims. -/

/-- A URL already in the visited set is skipped outright. -/
theorem fetch_page_visited (netloc : List Char → List Char) (domain : List Char)
    (outcome : List Char → Nat → Option FetchedPage) (url : List Char) (rc : Nat)
    (st : FetchSt) (h : st.visited.contains url = true) :
    fetch_page netloc domain outcome url rc st = (none, st, []) := by
  have hmem : url ∈ st.visited := by simpa using h
  simp [fetch_page, hmem]

/-- Any entry call (`retry_count = 0`, as made by `crawl`) leaves the failed
set untouched: when the first attempt fails, the retry call finds the URL
already in `visited` and returns immediately, so the `failed_urls.add` line
is unreachable. -/
theorem fetch_page_failed_unchanged (netloc : List Char → List Char)
    (domain : List Char) (outcome : List Char → Nat → Option FetchedPage)
    (url : List Char) (st : FetchSt) :
    (fetch_page netloc domain outcome url 0 st).2.1.failed = st.failed := by
  cases hv : validUrl netloc domain url with
  | false => simp [fetch_page, hv]
  | true =>
    by_cases hm : url ∈ st.visited
    · simp [fetch_page, hm]
    · have hrec := fetch_page_visited netloc domain outcome url 1
        ⟨url :: st.visited, st.failed⟩ (by simp)
      cases houtcome : outcome url 0 <;>
        simp [fetch_page, hv, hm, houtcome, hrec, MAX_RETRIES]

/-- C8: for every URL that is empty, or contains a configured blacklist
substring, or whose host differs from the seed host, `fetch_page` performs no
retrieval attempt and causes no side effect. -/
theorem fetch_skips_invalid_C8 (netloc : List Char → List Char)
    (domain : List Char) (outcome : List Char → Nat → Option FetchedPage)
    (url : List Char) (rc : Nat) (st : FetchSt)
    (hbad : url = [] ∨ (∃ p ∈ BLACKLIST_PATTERNS, hasSub p url = true) ∨
      netloc url ≠ domain) :
    fetch_page netloc domain outcome url rc st = (none, st, []) := by
  have hv : validUrl netloc domain url = false := by
    rcases hbad with h | ⟨pat, hpat, hsubq⟩ | h
    · simp [validUrl, h]
    · have hany : BLACKLIST_PATTERNS.any (fun p => hasSub p url) = true :=
        List.any_eq_true.mpr ⟨pat, hpat, hsubq⟩
      simp [validUrl, hany]
    · unfold validUrl
      split
      · rfl
      · exact beq_eq_false_iff_ne.mpr h
  simp [fetch_page, hv]

/-- Witness for C8: a same-host URL containing the blacklisted `.jpg`
substring is skipped with no state change and no events. -/
theorem fetch_skips_invalid_C8_witness :
    fetch_page nl0 "h".data failOutcome "x.jpg".data 0 ⟨[], []⟩
      = (none, ⟨[], []⟩, []) :=
  fetch_skips_invalid_C8 nl0 "h".data failOutcome "x.jpg".data 0 ⟨[], []⟩
    (Or.inr (Or.inl ⟨".jpg".data, by decide, by decide⟩))

/-- C2 (refuting evaluation): for a valid, fresh URL whose retrieval always
fails, the code performs exactly one retrieval attempt and one backoff sleep
— the retry re-entry finds the URL already visited and stops — and the URL is
never added to the failed set; the claim expects `MAX_RETRIES + 1 = 4`
attempts and a final insertion into the failed set. -/
theorem fetch_retry_C2 :
    fetch_page nl0 "h".data failOutcome seed0 0 ⟨[], []⟩
      = (none, ⟨[seed0], []⟩, [.attempt seed0 0, .sleep 1]) := by
  have hval : validUrl nl0 "h".data seed0 = true := by decide
  have hrec := fetch_page_visited nl0 "h".data failOutcome seed0 1
    ⟨[seed0], []⟩ (by decide)
  simp [fetch_page, hval, hrec, failOutcome, MAX_RETRIES]

/-- C3 (refuting evaluation): when the seed's retrieval always fails, `crawl`
returns an empty page list — but its `failed_urls` is empty and in particular
does not contain the seed, because `fetch_page` never reaches its
`failed_urls.add` line. -/
theorem crawl_failed_seed_C3 :
    crawl nl0 "h".data failOutcome noAnchors seed0
      = (⟨[], []⟩, ⟨[seed0], []⟩, [.attempt seed0 0, .sleep 1]) := by
  have hval : validUrl nl0 "h".data seed0 = true := by decide
  have hrec := fetch_page_visited nl0 "h".data failOutcome seed0 1
    ⟨[seed0], []⟩ (by decide)
  have hfetch : fetch_page nl0 "h".data failOutcome seed0 0 ⟨[], []⟩
      = (none, ⟨[seed0], []⟩, [.attempt seed0 0, .sleep 1]) := by
    simp [fetch_page, hval, hrec, failOutcome, MAX_RETRIES]
  simp [crawl, hfetch]

/-! Orchestrator and exporter claims. -/

/-- C1 (refuting evaluation): for pages whose parse succeeds, the safety-net
text write does happen first, but the full multi-format export is never
attempted for any page: `await exporter.save_txt(...)` awaits the `None`
returned by the synchronous `save_txt`, raising `TypeError` into the export
handler before `export_page` is called.  Two successfully parsed pages
produce two safety-net writes, two export-failure errors and no export
attempt. -/
theorem orchestrator_safety_net_C1 :
    scrapePages ph0 tok0 upath0 "ts".data [page0, page0b]
      = ([.savedTxt "a.txt".data "ok".data, .errLogged "Failed to export".data,
          .savedTxt "b.txt".data "ok".data, .errLogged "Failed to export".data], 2) ∧
    (scrapePages ph0 tok0 upath0 "ts".data [page0, page0b]).1.filter isExportEv
      = [] := by
  have h : scrapePages ph0 tok0 upath0 "ts".data [page0, page0b]
      = ([.savedTxt "a.txt".data "ok".data, .errLogged "Failed to export".data,
          .savedTxt "b.txt".data "ok".data, .errLogged "Failed to export".data], 2) := by
    simp [scrapePages, processPage, parse_page, extract_content, scrubList,
      findAllTargets, getTextList, elemPiece, joinNl, clean_text, collapseWsAux,
      pyStrip, isSpaceCh, keepCh, isWordCh, unwantedTag, targetTag, page0, page0b,
      ph0, tok0, upath0, save_txt_filename, stripSlashes, endsWithL, hasPre,
      headingTag, List.filterMap_cons]
  refine ⟨h, ?_⟩
  rw [h]
  decide

/-- C4 (refuting evaluation): the record handed to `export_page` by the
orchestrator is the `parse_page` metadata record, whose dictionary has no
`html` key, so `page_data['html']` raises `KeyError` while the arguments of
`save_raw_html` are being evaluated — before `asyncio.gather` starts — and no
write of any format is attempted, whatever the per-write fault situation
(first conjunct).  Had the key been present, the three writes would indeed
have been isolated: each format's file is persisted exactly when its own
write does not fault, and the overall call succeeds exactly when none faults
(second and third conjuncts). -/
theorem export_page_isolation_C4 (render : ParsedPage → List Char)
    (faults : WriteFaults) (p : ParsedPage) (html : List Char)
    (chunks : List Chunk) :
    export_page render faults p none chunks = ([], some "KeyError: html".data) ∧
    (export_page render faults p (some html) chunks).1 =
      (if faults.rawFault = none then [save_raw_html_file p.url html] else []) ++
        (if faults.jsonFault = none then [save_json_file render p] else []) ++
        (if faults.chunksFault = none then save_txt_chunks_files p.url chunks
          else []) ∧
    ((export_page render faults p (some html) chunks).2 = none ↔
      faults.rawFault = none ∧ faults.jsonFault = none ∧
        faults.chunksFault = none) := by
  rcases faults with ⟨r0, j0, c0⟩
  refine ⟨rfl, ?_, ?_⟩ <;>
    cases r0 <;> cases j0 <;> cases c0 <;>
      simp [export_page, gatherFiles, writeAct]

/-! Parse-page claim. -/

/-- C7 (amended): `parse_page` fails exactly when the `html`, `url` or
`title` key is missing, or the markup value is `None` or not a string, or the
markup is empty/blank, or the extracted raw text strips to empty (the check
happens on the extracted text before cleaning, and `url`/`title` are only
checked for presence, not non-emptiness); on success the record carries the
stripped title and url, the cleaned content, the timestamp, and a token count
equal to the tokenizer's count of the content. -/
theorem parse_page_spec_C7 (parseHtml : List Char → List HNode)
    (tok : List Char → Nat) (now : List Char) (p : PageRec) :
    (exceptErr (parse_page parseHtml tok now p) = true ↔
      p.html = none ∨ p.url = none ∨ p.title = none ∨
      p.html = some .pynone ∨ p.html = some .other ∨
      (∃ h, p.html = some (.str h) ∧ pyStrip h = []) ∨
      (∃ h, p.html = some (.str h) ∧
        pyStrip (extract_content (parseHtml h)) = [])) ∧
    (∀ pg, parse_page parseHtml tok now p = .ok pg →
      pg.tokens = tok pg.content ∧ pg.timestamp = now ∧
      pg.title = pyStrip (p.title.getD []) ∧ pg.url = pyStrip (p.url.getD []) ∧
      ∃ h, p.html = some (.str h) ∧
        pg.content = clean_text (extract_content (parseHtml h))) := by
  rcases p with ⟨html, url, title⟩
  cases html with
  | none => simp [parse_page, exceptErr]
  | some v =>
    cases url with
    | none => cases v <;> simp [parse_page, exceptErr]
    | some u =>
      cases title with
      | none => cases v <;> simp [parse_page, exceptErr]
      | some t =>
        cases v with
        | pynone => simp [parse_page, exceptErr]
        | other => simp [parse_page, exceptErr]
        | str h =>
          by_cases h1 : pyStrip h = []
          · simp [parse_page, exceptErr, h1]
          · by_cases h2 : pyStrip (extract_content (parseHtml h)) = []
            · simp [parse_page, exceptErr, h1, h2]
            · simp [parse_page, exceptErr, h1, h2]

/-- Witness for C7 at a concrete input: a record lacking the `html` key is
rejected. -/
theorem parse_page_spec_C7_witness :
    exceptErr (parse_page ph0 tok0 "ts".data ⟨none, some "u".data, some "t".data⟩)
      = true :=
  (parse_page_spec_C7 ph0 tok0 "ts".data
    ⟨none, some "u".data, some "t".data⟩).1.mpr (Or.inl rfl)

/-- C7 counterexample: a record whose `title` is present but empty parses
successfully, although the claim as stated requires a parse failure for every
record lacking a non-empty title (the code checks only key presence, and
checks extracted-content emptiness before cleaning rather than after). -/
theorem parse_page_C7_counterexample : ¬ c7Claim := by
  intro hclaim
  have h2 := (hclaim ph0 tok0 "ts".data pageRec0).2
    (Or.inr (Or.inr (Or.inr (Or.inr (Or.inl rfl)))))
  have h3 : exceptErr (parse_page ph0 tok0 "ts".data pageRec0) = false := by
    simp [parse_page, exceptErr, pageRec0, ph0, extract_content, scrubList,
      findAllTargets, getTextList, elemPiece, joinNl, pyStrip, isSpaceCh,
      unwantedTag, targetTag, headingTag, List.filterMap_cons]
  simp [h2] at h3

/-! Filename claims. -/

theorem c9SafeName_append {a b : List Char} (ha : c9SafeName a)
    (hb : c9SafeName b) : c9SafeName (a ++ b) := by
  intro c hc
  rcases List.mem_append.mp hc with h | h
  · exact ha c h
  · exact hb c h

theorem digitCharOf_safe (n : Nat) : (digitCharOf n).isAlphanum = true := by
  unfold digitCharOf
  generalize n % 10 = m
  rcases m with _|_|_|_|_|_|_|_|_|k <;> rfl

theorem natDigitsGo_safe : ∀ (fuel n : Nat) (acc : List Char),
    (∀ c ∈ acc, c.isAlphanum = true) →
    ∀ c ∈ natDigitsGo fuel n acc, c.isAlphanum = true := by
  intro fuel
  induction fuel with
  | zero => intro n acc hacc; simpa [natDigitsGo] using hacc
  | succ f ih =>
    intro n acc hacc c hc
    simp only [natDigitsGo] at hc
    split at hc
    · rcases List.mem_cons.mp hc with h | h
      · subst h; exact digitCharOf_safe n
      · exact hacc c h
    · refine ih (n / 10) _ ?_ c hc
      intro d hd
      rcases List.mem_cons.mp hd with h | h
      · subst h; exact digitCharOf_safe n
      · exact hacc d h

theorem natDigits_safe (n : Nat) : ∀ c ∈ natDigits n, c.isAlphanum = true :=
  natDigitsGo_safe (n + 1) n [] (by simp)

theorem sanitize_safe (url : List Char) : c9SafeName (sanitize_filename url) := by
  intro c hc
  have hc2 := List.take_subset _ _ hc
  rcases List.mem_map.mp hc2 with ⟨a, _, rfl⟩
  by_cases h : (a.isAlphanum || a = '.' || a = '-' || a = '_') = true
  · rw [if_pos h]
    simp only [Bool.or_eq_true, decide_eq_true_eq] at h
    rcases h with ((h | h) | h) | h
    · left; exact h
    · right; left; exact h
    · right; right; left; exact h
    · right; right; right; exact h
  · rw [if_neg h]
    right; right; right; rfl

theorem hasPre_self_append : ∀ (p m : List Char), hasPre p (p ++ m) = true := by
  intro p
  induction p with
  | nil => intro m; rfl
  | cons a as ih => intro m; simp [hasPre, ih]

theorem save_txt_filename_parts (upath : List Char) :
    (∀ c ∈ save_txt_filename upath, c ≠ '/') ∧
    endsWithL ".txt".data (save_txt_filename upath) = true := by
  unfold save_txt_filename
  set f0 := (stripSlashes upath).map (fun c => if c = '/' then '_' else c) with hf0
  have hnoslash : ∀ c ∈ f0, c ≠ '/' := by
    intro c hc
    rcases List.mem_map.mp hc with ⟨a, _, rfl⟩
    by_cases h : a = '/'
    · simp [h]
    · simp [h]
  have hnoslash1 : ∀ c ∈ (if f0 = [] then "index".data else f0), c ≠ '/' := by
    split
    · decide
    · exact hnoslash
  set f1 := if f0 = [] then "index".data else f0 with hf1
  by_cases hend : endsWithL ".txt".data f1 = true
  · rw [if_pos hend]
    exact ⟨hnoslash1, hend⟩
  · rw [if_neg hend]
    constructor
    · intro c hc
      rcases List.mem_append.mp hc with h | h
      · exact hnoslash1 c h
      · intro hq; subst hq; revert h; decide
    · unfold endsWithL
      rw [List.reverse_append]
      exact hasPre_self_append _ _

/-- C9 (amended): the raw-markup, JSON-record and chunk text files all use a
name built from `_sanitize_filename` of the URL — every character
alphanumeric or one of `. - _`, base capped at 100 characters — plus a fixed
extension; the safety-net text file instead uses the raw URL path with
slashes stripped or replaced by underscores and a `.txt` suffix: it contains
no path separator (so it stays a single path component), but it is neither
character-sanitized nor length-capped. -/
theorem filename_discipline_C9 (render : ParsedPage → List Char)
    (p : ParsedPage) (url html upath : List Char) (chunks : List Chunk) :
    c9SafeName (sanitize_filename url) ∧
    (sanitize_filename url).length ≤ 100 ∧
    c9SafeName (save_raw_html_file url html).name ∧
    c9SafeName (save_json_file render p).name ∧
    (∀ f ∈ save_txt_chunks_files url chunks, c9SafeName f.name) ∧
    (∀ c ∈ save_txt_filename upath, c ≠ '/') ∧
    endsWithL ".txt".data (save_txt_filename upath) = true := by
  refine ⟨sanitize_safe url, ?_, ?_, ?_, ?_, (save_txt_filename_parts upath).1,
    (save_txt_filename_parts upath).2⟩
  · simp [sanitize_filename, List.length_take]
  · exact c9SafeName_append (sanitize_safe url) (by decide)
  · exact c9SafeName_append (sanitize_safe p.url) (by decide)
  · intro f hf
    rcases List.mem_map.mp hf with ⟨⟨i, ch⟩, _, rfl⟩
    refine c9SafeName_append
      (c9SafeName_append (c9SafeName_append (sanitize_safe url) (by decide)) ?_)
      (by decide)
    intro c hc
    left
    exact natDigits_safe (i + 1) c hc

set_option maxRecDepth 4000 in
/-- C9 counterexample: the safety-net filename for the URL path `/a%b` is
`a%b.txt`, which keeps the character `%` (neither alphanumeric nor one of
`. - _`), and a 200-character path yields a 204-character filename, so the
safety-net file is neither character-sanitized nor length-capped as the claim
states for every per-page output file. -/
theorem filename_discipline_C9_counterexample :
    ¬ c9SafeName (save_txt_filename "/a%b".data) ∧
    104 < (save_txt_filename (List.replicate 200 'a')).length := by
  constructor
  · decide
  · decide

end AICS
